import Mathlib

/-!
Verification of the decentragri consumer server's aggregation/enrichment core.

The Go sources are shallowly embedded: Go strings become `List Char`
(`GoStr`), byte slices become `List Nat`, machine ints become `Int`
(no overflow is reachable in the modelled arithmetic), and every
side-effecting collaborator (Redis cache, Memgraph, the engine HTTP API,
image HTTP fetches) becomes an explicit oracle recorded in a small
environment structure, with the calls the code makes recorded in an
effect list.
-/

namespace DecentragriSpec

/-- Go strings modelled as lists of characters. -/
abbrev GoStr := List Char

/-- Go `strings.Index`: position of the first occurrence of `pat` in `s`
(`none` models Go's `-1`). -/
def goIndex : GoStr → GoStr → Option Nat
  | [], pat => if pat.isPrefixOf [] then some 0 else none
  | c :: t, pat =>
      if pat.isPrefixOf (c :: t) then some 0 else (goIndex t pat).map (· + 1)

/-- Go `strings.Contains` (defined in Go via `Index >= 0`). -/
def goContains (s pat : GoStr) : Bool := (goIndex s pat).isSome

/-- Go `strings.Replace(s, old, new, 1)`: replace the first occurrence only. -/
def goReplace1 (s old new : GoStr) : GoStr :=
  match goIndex s old with
  | none => s
  | some i => s.take i ++ new ++ s.drop (i + old.length)

def httpsPre : GoStr := "https://".toList
def httpPre : GoStr := "http://".toList
def ipfsPre : GoStr := "ipfs://".toList
def cdnPat : GoStr := ".ipfscdn.io/ipfs/".toList
def cdnHost : GoStr := ".ipfscdn.io".toList
def slashIpfs : GoStr := "/ipfs/".toList
def qmPre : GoStr := "Qm".toList
def protoSep : GoStr := "://".toList
def ipfsIoBase : GoStr := "https://ipfs.io/ipfs/".toList

/-- The hard-coded fallback client id in `marketplaceservices.BuildIpfsUri`. -/
def defaultClientID : GoStr := "758a938bc85320ceb23c40418e01618a".toList

/-- The tail of `marketplaceservices.BuildIpfsUri` after the gateway-rewrite
branch: plain HTTP(S) URLs pass through, `ipfs://` URIs are converted to the
client gateway, anything else is returned unchanged. -/
def mktBuildIpfsUriRest (clientID s : GoStr) : GoStr :=
  if httpPre.isPrefixOf s || httpsPre.isPrefixOf s then s
  else if ipfsPre.isPrefixOf s then httpsPre ++ clientID ++ cdnPat ++ s.drop 7
  else s

/-- `marketplaceservices.BuildIpfsUri` (src/marketplace.services/utils.go),
with the effective client id (`CLIENT_ID` env or fallback) as a parameter.
The first branch rewrites an existing `<id>.ipfscdn.io/ipfs/` gateway URL to
carry `clientID`; when its inner guard fails Go falls through to the
remaining branches, which `mktBuildIpfsUriRest` replicates. -/
def mktBuildIpfsUri (clientID s : GoStr) : GoStr :=
  if httpsPre.isPrefixOf s && goContains s cdnPat then
    if 8 < (goIndex s cdnPat).getD 0 then
      goReplace1 s ((s.drop 8).take ((goIndex s cdnPat).getD 0 - 8) ++ cdnHost)
        (clientID ++ cdnHost)
    else mktBuildIpfsUriRest clientID s
  else mktBuildIpfsUriRest clientID s

/-- `marketplaceservices.BuildIpfsUri` including the `CLIENT_ID` environment
lookup: an empty environment value falls back to the hard-coded id. -/
def mktBuildIpfsUriEnv (envClientID s : GoStr) : GoStr :=
  mktBuildIpfsUri (if envClientID = [] then defaultClientID else envClientID) s

/-- `portfolioservices.BuildIpfsUri` (src/portfolio.services/porfolio.service.go):
ipfs.io-gateway resolution, including the bare 46-character `Qm` hash branch. -/
def pfBuildIpfsUri (s : GoStr) : GoStr :=
  if s = [] then []
  else if httpPre.isPrefixOf s || httpsPre.isPrefixOf s then s
  else if ipfsPre.isPrefixOf s then ipfsIoBase ++ s.drop 7
  else if !goContains s protoSep && s.length == 46 && qmPre.isPrefixOf s then
    ipfsIoBase ++ s
  else s

/-! ### `FetchImageBytes` (identical in marketplace.services/utils.go and
portfolio.services/porfolio.service.go) -/

/-- Oracles for the collaborators `FetchImageBytes` touches.  `md5hex`
models `hex.EncodeToString(md5.Sum(uri))`; `http` models the fiber GET
(`none` is a transport error, `some (status, body)` a response); `cacheGet`
models a `cache.Get` that deserialized into a byte slice (`none` = error). -/
structure FetchWorld where
  md5hex : GoStr → GoStr
  cacheExists : GoStr → Bool
  cacheGet : GoStr → Option (List Nat)
  http : GoStr → Option (Int × List Nat)

/-- Externally observable calls made by `FetchImageBytes`. -/
inductive FetchEff where
  | cacheRead (key : GoStr)
  | httpGet (url : GoStr)
  | cacheSet (key : GoStr) (value : List Nat) (ttlSeconds : Nat)
deriving DecidableEq

/-- The image cache key: `"image:" ++ hex(md5(uri))`. -/
def imageCacheKey (w : FetchWorld) (uri : GoStr) : GoStr :=
  "image:".toList ++ w.md5hex uri

/-- `FetchImageBytes`: empty-URI guard, cache-first lookup (an empty cached
value falls through), network fetch with status/emptiness validation, and a
1-hour cache write on success.  Returns the result plus the calls made. -/
def fetchImageBytes (w : FetchWorld) (uri : GoStr) :
    Except GoStr (List Nat) × List FetchEff :=
  if uri = [] then (.error "image URI is empty".toList, [])
  else
    let key := imageCacheKey w uri
    let cached : Option (List Nat) :=
      if w.cacheExists key then
        match w.cacheGet key with
        | some b => if 0 < b.length then some b else none
        | none => none
      else none
    match cached with
    | some b => (.ok b, [.cacheRead key])
    | none =>
      match w.http uri with
      | none => (.error "failed to fetch image".toList, [.cacheRead key, .httpGet uri])
      | some (status, body) =>
        if status < 200 || 300 ≤ status then
          (.error ("HTTP request failed with status ".toList
              ++ (toString status).toList),
            [.cacheRead key, .httpGet uri])
        else if body.length = 0 then
          (.error "image data is empty".toList, [.cacheRead key, .httpGet uri])
        else
          (.ok body, [.cacheRead key, .httpGet uri, .cacheSet key body 3600])

/-- A concrete fetch world: cold cache, HTTP 200 with body `[7]`. -/
def okFetchWorld : FetchWorld :=
  { md5hex := fun _ => "d41d8cd9".toList, cacheExists := fun _ => false,
    cacheGet := fun _ => none, http := fun _ => some (200, [7]) }

/-- A concrete fetch world whose cache holds an empty byte slice. -/
def emptyCachedWorld : FetchWorld :=
  { md5hex := fun _ => "k0".toList, cacheExists := fun _ => true,
    cacheGet := fun _ => some [], http := fun _ => some (200, [7]) }

/-! ### `GetFarmScans` (src/farm.services/farm.service.go)

The graph records returned by Memgraph are dynamically typed, so the record
type and the per-record result assembly (date parsing, image enrichment,
interpretation parsing) are oracle parameters `R`, `processPlant`,
`processSoil` of the environment; none of the pagination/caching claims
depend on them.  The skeleton — offset computation, defaulting, cache check,
the four queries with their error wrapping, count extraction and pagination
assembly — follows the source line by line. -/

structure PaginationInfo where
  page : Int
  limit : Int
  total : Int
  totalPages : Int
  hasNext : Bool
  hasPrevious : Bool
deriving DecidableEq

structure FarmScanResult (P S : Type) where
  plantScans : List P
  soilReadings : List S
  pagination : PaginationInfo
deriving DecidableEq

structure ScanPlan where
  offset : Int
  page : Int
  limit : Int
  cacheKey : String
deriving DecidableEq

/-- The prelude of `GetFarmScans`: in the source the offset is computed from
the raw `page`/`limit` arguments BEFORE the defaulting of non-positive
values; the cache key uses the defaulted values. -/
def farmScansPlan (farmName : String) (page limit : Int) : ScanPlan :=
  let offset := (page - 1) * limit
  let limit' := if limit ≤ 0 then 10 else limit
  let page' := if page ≤ 0 then 1 else page
  { offset := offset, page := page', limit := limit',
    cacheKey := "farm_scans:" ++ farmName ++ ":page_" ++ toString page'
      ++ ":limit_" ++ toString limit' }

/-- Collaborator oracles of `GetFarmScans`: Redis existence/get, the two
paged and two count Memgraph reads, and the per-record assembly. -/
structure ScanEnv (R P S : Type) where
  cacheExists : String → Bool
  cacheGet : String → Option (FarmScanResult P S)
  plantPageQ : String → Int → Int → Except String (List R)
  soilPageQ : String → Int → Int → Except String (List R)
  plantCountQ : String → Except String (List (Option Int))
  soilCountQ : String → Except String (List (Option Int))
  processPlant : R → P
  processSoil : R → S

/-- Graph-store queries and cache writes issued by `GetFarmScans`. -/
inductive ScanEff where
  | qPlantPage (farmName : String) (offset limit : Int)
  | qSoilPage (farmName : String) (offset limit : Int)
  | qPlantCount (farmName : String)
  | qSoilCount (farmName : String)
  | cacheWrite (key : String)
deriving DecidableEq

/-- Count extraction: the first record's `total` field when present and
int64-typed, otherwise the 0 default. -/
def extractTotal (recs : List (Option Int)) : Int :=
  match recs with
  | [] => 0
  | r :: _ =>
    match r with
    | some t => t
    | none => 0

/-- The live path of `GetFarmScans`: all four queries are issued
(concurrently in the source), then errors are checked in source order, then
counts, pagination metadata (`total` is the larger of the two counts,
`totalPages` Go-style ceiling division) and the response are assembled and
the result is cached. -/
def getFarmScansLive {R P S : Type} (env : ScanEnv R P S) (farmName : String)
    (pl : ScanPlan) : Except String (FarmScanResult P S) × List ScanEff :=
  let effs := [ScanEff.qPlantPage farmName pl.offset pl.limit,
    ScanEff.qSoilPage farmName pl.offset pl.limit,
    ScanEff.qPlantCount farmName, ScanEff.qSoilCount farmName]
  match env.plantPageQ farmName pl.offset pl.limit with
  | .error e => (.error ("failed to fetch plant scans: " ++ e), effs)
  | .ok precs =>
    match env.soilPageQ farmName pl.offset pl.limit with
    | .error e => (.error ("failed to fetch soil readings: " ++ e), effs)
    | .ok srecs =>
      match env.plantCountQ farmName with
      | .error e => (.error ("failed to get plant scans count: " ++ e), effs)
      | .ok pcrecs =>
        match env.soilCountQ farmName with
        | .error e => (.error ("failed to get soil readings count: " ++ e), effs)
        | .ok screcs =>
          let plantTotal := extractTotal pcrecs
          let soilTotal := extractTotal screcs
          let total := if plantTotal < soilTotal then soilTotal else plantTotal
          let totalPages := Int.tdiv (total + pl.limit - 1) pl.limit
          (.ok { plantScans := precs.map env.processPlant,
                 soilReadings := srecs.map env.processSoil,
                 pagination :=
                   { page := pl.page, limit := pl.limit, total := total,
                     totalPages := totalPages,
                     hasNext := decide (pl.page < totalPages),
                     hasPrevious := decide (1 < pl.page) } },
            effs ++ [ScanEff.cacheWrite pl.cacheKey])

/-- `GetFarmScans`: cache-first (an existing entry that deserializes is
returned with no queries issued), otherwise the live path. -/
def getFarmScans {R P S : Type} (env : ScanEnv R P S) (farmName : String)
    (page limit : Int) : Except String (FarmScanResult P S) × List ScanEff :=
  let pl := farmScansPlan farmName page limit
  match (if env.cacheExists pl.cacheKey then env.cacheGet pl.cacheKey else none) with
  | some r => (.ok r, [])
  | none => getFarmScansLive env farmName pl

/-- A concrete cache-missing environment (plant count 5, soil count 3). -/
def missScanEnv : ScanEnv Unit Unit Unit :=
  { cacheExists := fun _ => false, cacheGet := fun _ => none,
    plantPageQ := fun _ _ _ => .ok [], soilPageQ := fun _ _ _ => .ok [],
    plantCountQ := fun _ => .ok [some 5], soilCountQ := fun _ => .ok [some 3],
    processPlant := fun _ => (), processSoil := fun _ => () }

/-- A concrete cached farm-scan result. -/
def cachedScanResult : FarmScanResult Unit Unit :=
  { plantScans := [], soilReadings := [],
    pagination :=
      { page := 1, limit := 10, total := 0, totalPages := 0,
        hasNext := false, hasPrevious := false } }

/-- A concrete environment whose cache hits on every key. -/
def hitScanEnv : ScanEnv Unit Unit Unit :=
  { missScanEnv with
    cacheExists := fun _ => true, cacheGet := fun _ => some cachedScanResult }

/-! ### `GetAllValidFarmPlotListings` (src/marketplace.services/utils.go)

The `DirectListing` fields and the non-attribute metadata fields are copied
wholesale by the enrichment, so they are opaque type parameters `δ` and `β`;
the attribute list carries the `image` field the enrichment reads plus an
opaque rest `α`.  The bounded-concurrency fan-out (semaphore of 20, wait
group, mutex) writes each fetched image into its own pre-populated slot, so
its result is the positional per-slot map embedded here. -/

structure FarmPlotAttr (α : Type) where
  image : GoStr
  rest : α
deriving DecidableEq

structure FarmPlotMeta (α β : Type) where
  attributes : List (FarmPlotAttr α)
  rest : β
deriving DecidableEq

structure FarmPlotDirectListing (δ α β : Type) where
  directListing : δ
  asset : FarmPlotMeta α β
deriving DecidableEq

/-- `FarmPlotDirectListingsWithImageByte`: the listing plus the image slot
(Go `nil` slice = `none`). -/
structure FarmPlotListingWithImage (δ α β : Type) where
  directListing : δ
  asset : FarmPlotMeta α β
  imageBytes : Option (List Nat)
deriving DecidableEq

/-- First attribute with a nonempty image URI — the scan both the pre-filter
and the fetch goroutine perform. -/
def listingImageURI {δ α β : Type} (l : FarmPlotDirectListing δ α β) :
    Option GoStr :=
  (l.asset.attributes.find? (fun a => !a.image.isEmpty)).map (fun a => a.image)

/-- Enrichment of one listing slot: the base fields are copied up front with
a nil image; when an image attribute exists its URI is resolved through
`BuildIpfsUri` and fetched, and a failed fetch leaves the slot's image at the
nil default. -/
def enrichListing {δ α β : Type} (envClientID : GoStr)
    (fetch : GoStr → Option (List Nat)) (l : FarmPlotDirectListing δ α β) :
    FarmPlotListingWithImage δ α β :=
  { directListing := l.directListing, asset := l.asset,
    imageBytes :=
      match listingImageURI l with
      | none => none
      | some uri => fetch (mktBuildIpfsUriEnv envClientID uri) }

/-- Outcome of the engine marketplace API call: transport error, or a status
with the JSON-parse outcome of the body. -/
inductive MktApiOutcome (δ α β : Type) where
  | transportErr (msg : String)
  | resp (status : Int) (parsed : Except String (List (FarmPlotDirectListing δ α β)))

/-- Collaborator oracles of `GetAllValidFarmPlotListings`. -/
structure MktEnv (δ α β : Type) where
  envClientID : GoStr
  cacheExists : String → Bool
  cacheGet : String → Option (List (FarmPlotListingWithImage δ α β))
  api : String → MktApiOutcome δ α β
  fetchImage : GoStr → Option (List Nat)

inductive MktEff where
  | apiCall (url : String)
  | imgFetch (url : GoStr)
  | cacheWrite (key : String)
deriving DecidableEq

def configCHAIN : String := "421614"
def configMarketplaceContract : String := "0x204239c1A74e6d1D17A6FE52172f3F8D26597DB9"
def configEngineBase : String := "https://engine.decentragri.com"

def mktCacheKey (chainID contractAddress : String) : String :=
  "farm_plot_listings:"
    ++ (if chainID = "" then configCHAIN else chainID) ++ ":"
    ++ (if contractAddress = "" then configMarketplaceContract else contractAddress)

def mktListingsUrl (chainID contractAddress : String) : String :=
  configEngineBase ++ "/marketplace/"
    ++ (if chainID = "" then configCHAIN else chainID) ++ "/"
    ++ (if contractAddress = "" then configMarketplaceContract else contractAddress)
    ++ "/direct-listings/get-all-valid"

/-- `GetAllValidFarmPlotListings`: parameter defaulting, cache-first, the
engine API call with status and JSON validation, early return on zero
listings (uncached), slot pre-population and per-slot image enrichment, and
a 5-minute cache write only when at least one listing carried an image
URI (the zero-image early return skips the write, as in the source). -/
def getAllValidFarmPlotListings {δ α β : Type} (env : MktEnv δ α β)
    (chainID contractAddress : String) :
    Except String (List (FarmPlotListingWithImage δ α β)) × List MktEff :=
  let cacheKey := mktCacheKey chainID contractAddress
  match (if env.cacheExists cacheKey then env.cacheGet cacheKey else none) with
  | some cached => (.ok cached, [])
  | none =>
    let url := mktListingsUrl chainID contractAddress
    match env.api url with
    | .transportErr m => (.error ("error sending request: " ++ m), [.apiCall url])
    | .resp status parsed =>
      if status < 200 || 300 ≤ status then
        (.error ("API request failed with status " ++ toString status),
          [.apiCall url])
      else
        match parsed with
        | .error m =>
          (.error ("error parsing response JSON: " ++ m), [.apiCall url])
        | .ok listings =>
          if listings.isEmpty then (.ok [], [.apiCall url])
          else
            let result := listings.map (enrichListing env.envClientID env.fetchImage)
            let fetchEffs := listings.filterMap
              (fun l => (listingImageURI l).map
                (fun uri => MktEff.imgFetch (mktBuildIpfsUriEnv env.envClientID uri)))
            if fetchEffs.isEmpty then (.ok result, [.apiCall url])
            else (.ok result, [.apiCall url] ++ fetchEffs ++ [.cacheWrite cacheKey])

/-- A one-listing response whose single listing has one image attribute. -/
def oneListing : FarmPlotDirectListing Unit Unit Unit :=
  { directListing := (),
    asset := { attributes := [{ image := "ipfs://Qm1".toList, rest := () }],
               rest := () } }

/-- A concrete marketplace environment: cold cache, API returns `oneListing`,
every image fetch fails. -/
def failFetchMktEnv : MktEnv Unit Unit Unit :=
  { envClientID := [], cacheExists := fun _ => false, cacheGet := fun _ => none,
    api := fun _ => .resp 200 (.ok [oneListing]),
    fetchImage := fun _ => none }

/-- A concrete marketplace environment whose cache hits with `[]`. -/
def hitMktEnv : MktEnv Unit Unit Unit :=
  { failFetchMktEnv with
    cacheExists := fun _ => true, cacheGet := fun _ => some [] }

/-! ### Portfolio services (src/portfolio.services/porfolio.service.go,
src/token.services/token.go, `WalletService.GetOwnedNFTs`)

`VerifyAccessToken`'s non-sentinel path (JWT parse, signature check and
user-existence query) is the `jwtVerify` oracle; its sentinel branch — the
same branch the portfolio functions duplicate inline — is embedded.
`NFTAttribute.Value` is used by the enrichment as a string compared with
`""`, so it is modelled as a string. -/

def devBypassToken : String := "dev_bypass_authorized"

/-- The fixed development subject identifier (the treasury wallet). -/
def devWallet : String := "0x984785A89BF95cb3d5Df4E45F670081944d8D547"

def configFarmPlotContract : String := "0x3a981F929b06a44F739C8832e030bEF3881742dc"

structure NFTAttribute where
  traitType : String
  value : String
deriving DecidableEq

structure NFTMetadata where
  id : String
  uri : String
  name : String
  description : String
  externalUrl : String
  image : String
  attributes : List NFTAttribute
deriving DecidableEq

structure NFTItem where
  metadata : NFTMetadata
  owner : String
  type : String
  supply : String
  quantityOwned : String
deriving DecidableEq

structure NFTItemWithImageBytes where
  metadata : NFTMetadata
  owner : String
  type : String
  supply : String
  quantityOwned : String
  imageBytes : Option (List Nat)
deriving DecidableEq

structure EntirePortfolio where
  farmPlotNFTs : List NFTItemWithImageBytes
deriving DecidableEq

structure PortfolioSummary where
  farmPlotNFTCount : Int
deriving DecidableEq

inductive PfApiOutcome where
  | transportErr (msg : String)
  | resp (status : Int) (parsed : Except String (List NFTItem))

/-- Collaborator oracles of the portfolio operations. -/
structure PfEnv where
  jwtVerify : String → Except String String
  cacheExists : String → Bool
  cacheGetSummary : String → Option PortfolioSummary
  cacheGetPortfolio : String → Option EntirePortfolio
  nftApi : String → PfApiOutcome
  fetchImage : GoStr → Option (List Nat)

inductive PfEff where
  | nftApiCall (url : String)
  | imgFetch (url : GoStr)
  | cacheWrite (key : String)
deriving DecidableEq

/-- `TokenService.VerifyAccessToken`: the sentinel bypass first, otherwise
the JWT/user verification oracle. -/
def verifyAccessToken (env : PfEnv) (tok : String) : Except String String :=
  if tok = devBypassToken then .ok devWallet else env.jwtVerify tok

/-- The engine URL `GetOwnedNFTs` builds from the verified username. -/
def ownedNFTsUrl (contractAddress username : String) : String :=
  configEngineBase ++ "/contract/" ++ configCHAIN ++ "/" ++ contractAddress
    ++ "/erc1155/get-owned?walletAddress=" ++ username

/-- `WalletService.GetOwnedNFTs`: verifies the raw token through
`VerifyAccessToken`, then queries the engine with the resulting username. -/
def getOwnedNFTs (env : PfEnv) (contractAddress tok : String) :
    Except String (List NFTItem) × List PfEff :=
  match verifyAccessToken env tok with
  | .error e => (.error ("invalid or expired token: " ++ e), [])
  | .ok username =>
    let url := ownedNFTsUrl contractAddress username
    match env.nftApi url with
    | .transportErr m =>
      (.error ("failed to make request: " ++ m), [.nftApiCall url])
    | .resp status parsed =>
      if status < 200 || 300 ≤ status then
        (.error ("API request failed with status " ++ toString status),
          [.nftApiCall url])
      else
        match parsed with
        | .error m => (.error ("failed to decode response: " ++ m), [.nftApiCall url])
        | .ok items => (.ok items, [.nftApiCall url])

/-- Image URI extraction of `ConvertNFTsWithImages`: the first `image` trait
with a nonempty value, else the metadata URI when nonempty. -/
def nftImageURI (it : NFTItem) : Option String :=
  match (it.metadata.attributes.find?
      (fun a => a.traitType == "image" && !a.value.isEmpty)).map (fun a => a.value) with
  | some v => some v
  | none => if it.metadata.uri = "" then none else some it.metadata.uri

/-- Per-slot enrichment of `ConvertNFTsWithImages` (slot-owned concurrent
writes in the source; a failed fetch leaves the nil default). -/
def enrichNFT (fetch : GoStr → Option (List Nat)) (it : NFTItem) :
    NFTItemWithImageBytes :=
  { metadata := it.metadata, owner := it.owner, type := it.type,
    supply := it.supply, quantityOwned := it.quantityOwned,
    imageBytes :=
      match nftImageURI it with
      | none => none
      | some uri => fetch (pfBuildIpfsUri uri.toList) }

/-- `GetEntirePortfolio`: inline sentinel bypass or verification, cache-first
under `entire_portfolio:<username>`, owned-NFT lookup (passing the raw
token), enrichment, and a 5-minute cache write. -/
def getEntirePortfolio (env : PfEnv) (tok : String) :
    Except String EntirePortfolio × List PfEff :=
  match (if tok = devBypassToken then Except.ok devWallet else env.jwtVerify tok) with
  | .error e => (.error e, [])
  | .ok username =>
    let cacheKey := "entire_portfolio:" ++ username
    match (if env.cacheExists cacheKey then env.cacheGetPortfolio cacheKey else none) with
    | some cached => (.ok cached, [])
    | none =>
      match getOwnedNFTs env configFarmPlotContract tok with
      | (.error e, effs) => (.error e, effs)
      | (.ok items, effs) =>
        (.ok ⟨items.map (enrichNFT env.fetchImage)⟩,
          effs ++ items.filterMap
              (fun it => (nftImageURI it).map
                (fun uri => PfEff.imgFetch (pfBuildIpfsUri uri.toList)))
            ++ [.cacheWrite cacheKey])

/-- `GetPortFolioSummary`: same bypass/verification and caching pattern under
`portfolio:<username>`, counting the owned NFTs (3-minute TTL). -/
def getPortFolioSummary (env : PfEnv) (tok : String) :
    Except String PortfolioSummary × List PfEff :=
  match (if tok = devBypassToken then Except.ok devWallet else env.jwtVerify tok) with
  | .error e => (.error e, [])
  | .ok username =>
    let cacheKey := "portfolio:" ++ username
    match (if env.cacheExists cacheKey then env.cacheGetSummary cacheKey else none) with
    | some cached => (.ok cached, [])
    | none =>
      match getOwnedNFTs env configFarmPlotContract tok with
      | (.error e, effs) => (.error e, effs)
      | (.ok items, effs) =>
        (.ok ⟨(items.length : Int)⟩, effs ++ [.cacheWrite cacheKey])

/-- A concrete portfolio environment: the token `"tok"` verifies to the dev
wallet, cold cache, empty NFT list. -/
def devPfEnv : PfEnv :=
  { jwtVerify := fun s => if s = "tok" then .ok devWallet else .error "invalid token",
    cacheExists := fun _ => false, cacheGetSummary := fun _ => none,
    cacheGetPortfolio := fun _ => none,
    nftApi := fun _ => .resp 200 (.ok []), fetchImage := fun _ => none }

/-! ### First-occurrence facts about `goIndex` -/

theorem goIndex_eq_some_of (p : GoStr) :
    ∀ (s : GoStr) (a : Nat), p <+: s.drop a → (∀ j, j < a → ¬ p <+: s.drop j) →
      goIndex s p = some a := by
  intro s
  induction s with
  | nil =>
    intro a h1 h2
    have hp : p = [] := List.prefix_nil.mp (by simpa using h1)
    have ha : a = 0 := by
      by_contra h
      exact h2 0 (Nat.pos_of_ne_zero h) (by simp [hp])
    subst hp; subst ha
    simp [goIndex, List.isPrefixOf]
  | cons c t ih =>
    intro a h1 h2
    by_cases hpre : p <+: (c :: t)
    · have ha : a = 0 := by
        by_contra h
        exact h2 0 (Nat.pos_of_ne_zero h) (by simpa using hpre)
      subst ha
      simp [goIndex, List.isPrefixOf_iff_prefix.mpr hpre]
    · have hb : p.isPrefixOf (c :: t) = false := by
        rw [Bool.eq_false_iff]
        exact fun h => hpre (List.isPrefixOf_iff_prefix.mp h)
      cases a with
      | zero => exact absurd (by simpa using h1) hpre
      | succ b =>
        have hrec : goIndex t p = some b := by
          refine ih b (by simpa [List.drop_succ_cons] using h1) ?_
          intro j hj
          have := h2 (j + 1) (Nat.succ_lt_succ hj)
          simpa [List.drop_succ_cons] using this
        simp [goIndex, hb, hrec]

theorem goIndex_some_prefix {p : GoStr} :
    ∀ {s : GoStr} {i : Nat}, goIndex s p = some i → p <+: s.drop i := by
  intro s
  induction s with
  | nil =>
    intro i h
    by_cases hb : p.isPrefixOf ([] : GoStr)
    · simp [goIndex, hb] at h
      subst h
      simpa using List.isPrefixOf_iff_prefix.mp hb
    · simp [goIndex, hb] at h
  | cons c t ih =>
    intro i h
    by_cases hb : p.isPrefixOf (c :: t)
    · simp [goIndex, hb] at h
      subst h
      simpa using List.isPrefixOf_iff_prefix.mp hb
    · simp [goIndex, hb] at h
      obtain ⟨b, hbv, hbi⟩ := h
      subst hbi
      simpa [List.drop_succ_cons] using ih hbv

/-- Decompose a list at its first `'.'`. -/
theorem exists_first_dot {P : GoStr} (h : '.' ∈ P) :
    ∃ x y, P = x ++ '.' :: y ∧ '.' ∉ x := by
  induction P with
  | nil => simp at h
  | cons c Q ih =>
    by_cases hc : c = '.'
    · exact ⟨[], Q, by simp [hc], by simp⟩
    · obtain ⟨x, y, hxy, hx⟩ := ih (by
        rcases List.mem_cons.mp h with h' | h'
        · exact absurd h'.symm hc
        · exact h')
      refine ⟨c :: x, y, by simp [hxy], ?_⟩
      simp only [List.mem_cons, not_or]
      exact ⟨fun hh => hc hh.symm, hx⟩

/-- A list containing `'.'` is never a prefix of itself shifted right past a
nonempty dot-free pad. -/
theorem not_prefix_of_dotfree_pad (u P t : GoStr) (hu : u ≠ [])
    (hud : ∀ c ∈ u, c ≠ '.') (hP : '.' ∈ P) : ¬ P <+: (u ++ P ++ t) := by
  intro hpre
  obtain ⟨x, y, hxy, hx⟩ := exists_first_dot hP
  obtain ⟨r, hr⟩ := hpre
  have h1 : (P ++ r)[x.length]? = some '.' := by
    rw [hxy, List.append_assoc, List.cons_append,
      List.getElem?_append_right (Nat.le_refl x.length)]
    simp
  have hulen : 0 < u.length := List.length_pos.mpr hu
  have hxlen : x.length < (u ++ x).length := by
    simp only [List.length_append]
    omega
  have h2 : (u ++ P ++ t)[x.length]? = some ((u ++ x).get ⟨x.length, hxlen⟩) := by
    rw [hxy]
    have hshape : u ++ (x ++ '.' :: y) ++ t = (u ++ x) ++ ('.' :: (y ++ t)) := by
      simp [List.append_assoc]
    rw [hshape, List.getElem?_append_left hxlen]
    simp [List.get_eq_getElem, List.getElem?_eq_getElem hxlen]
  have hmem : (u ++ x).get ⟨x.length, hxlen⟩ ∈ u ++ x := by
    simp only [List.get_eq_getElem]
    exact List.getElem_mem hxlen
  have hne : (u ++ x).get ⟨x.length, hxlen⟩ ≠ '.' := by
    rcases List.mem_append.mp hmem with hm | hm
    · exact hud _ hm
    · exact fun hq => hx (hq ▸ hm)
  rw [hr] at h1
  rw [h1] at h2
  exact hne (Option.some.inj h2).symm

/-- In `a ++ (p ++ t)` with `a` dot-free and `'.' ∈ p`, the first occurrence
of `p` sits exactly at `a.length`. -/
theorem goIndex_append_pattern (a p t : GoStr) (ha : ∀ c ∈ a, c ≠ '.')
    (hp : '.' ∈ p) : goIndex (a ++ (p ++ t)) p = some a.length := by
  apply goIndex_eq_some_of
  · rw [List.drop_left]
    exact List.prefix_append p t
  · intro j hj hpre
    rw [List.drop_append_of_le_length (Nat.le_of_lt hj)] at hpre
    have hnil : a.drop j ≠ [] := by
      rw [Ne, List.drop_eq_nil_iff]
      omega
    refine not_prefix_of_dotfree_pad (a.drop j) p t hnil
      (fun c hc => ha c (List.mem_of_mem_drop hc)) hp ?_
    simpa [List.append_assoc] using hpre

/-- Replacing the first occurrence of a pattern by itself is the identity. -/
theorem goReplace1_self (s p : GoStr) : goReplace1 s p p = s := by
  cases h : goIndex s p with
  | none => simp [goReplace1, h]
  | some i =>
    obtain ⟨r, hr⟩ := goIndex_some_prefix h
    have h2 : s.drop (i + p.length) = r := by
      rw [← List.drop_drop, ← hr, List.drop_left]
    simp only [goReplace1, h]
    rw [h2]
    conv_rhs => rw [← List.take_append_drop i s, ← hr]
    simp [List.append_assoc]

example : mktBuildIpfsUri "c1".toList "ipfs://QmAbc".toList
    = "https://c1.ipfscdn.io/ipfs/QmAbc".toList := by decide

example : mktBuildIpfsUri "NEW".toList "https://OLD.ipfscdn.io/ipfs/H".toList
    = "https://NEW.ipfscdn.io/ipfs/H".toList := by decide

example : pfBuildIpfsUri "ipfs://Qm123".toList = "https://ipfs.io/ipfs/Qm123".toList := by
  decide

example : pfBuildIpfsUri "QmYwAPJzv5CZsnA625s3Xf2nemtYgPpHdWEz79ojWnPbdG".toList
    = "https://ipfs.io/ipfs/QmYwAPJzv5CZsnA625s3Xf2nemtYgPpHdWEz79ojWnPbdG".toList := by
  decide

example : mktBuildIpfsUriEnv [] "QmYwAPJzv5CZsnA625s3Xf2nemtYgPpHdWEz79ojWnPbdG".toList
    = "QmYwAPJzv5CZsnA625s3Xf2nemtYgPpHdWEz79ojWnPbdG".toList := by decide

/-! ### Idempotence of the marketplace resolver -/

theorem httpsPre_length : httpsPre.length = 8 := rfl

theorem httpsPre_dotfree : ∀ c ∈ httpsPre, c ≠ '.' := by decide

theorem dot_mem_cdnHost : '.' ∈ cdnHost := by decide

theorem dot_mem_cdnPat : '.' ∈ cdnPat := by decide

theorem cdnHost_append_slashIpfs : cdnHost ++ slashIpfs = cdnPat := rfl

/-- Resolving a gateway URL that already carries the configured client id is a
no-op of the marketplace resolver. -/
theorem mktBuild_fixed (cid q : GoStr) (h1 : cid ≠ []) (h2 : ∀ c ∈ cid, c ≠ '.') :
    mktBuildIpfsUri cid (httpsPre ++ cid ++ cdnPat ++ q)
      = httpsPre ++ cid ++ cdnPat ++ q := by
  set s := httpsPre ++ cid ++ cdnPat ++ q with hs
  have hshape : s = (httpsPre ++ cid) ++ (cdnPat ++ q) := by
    simp [hs, List.append_assoc]
  have hidx : goIndex s cdnPat = some (8 + cid.length) := by
    rw [hshape]
    have := goIndex_append_pattern (httpsPre ++ cid) cdnPat q
      (fun c hc => by
        rcases List.mem_append.mp hc with hm | hm
        · exact httpsPre_dotfree c hm
        · exact h2 c hm)
      dot_mem_cdnPat
    simpa [List.length_append, httpsPre_length] using this
  have hguard : (httpsPre.isPrefixOf s && goContains s cdnPat) = true := by
    have hpre : httpsPre.isPrefixOf s = true := by
      rw [List.isPrefixOf_iff_prefix, hs]
      simpa only [List.append_assoc] using
        List.prefix_append httpsPre (cid ++ (cdnPat ++ q))
    rw [hpre, goContains, hidx]
    rfl
  have hlt : 8 < 8 + cid.length := by
    have := List.length_pos.mpr h1
    omega
  have hdrop : s.drop 8 = cid ++ (cdnPat ++ q) := by
    have hsg : s = httpsPre ++ (cid ++ (cdnPat ++ q)) := by
      simp [hs, List.append_assoc]
    rw [hsg, ← httpsPre_length, List.drop_left]
  have htake : (s.drop 8).take (8 + cid.length - 8) = cid := by
    rw [hdrop]
    have h8 : 8 + cid.length - 8 = cid.length := by omega
    rw [h8, List.take_left]
  unfold mktBuildIpfsUri
  rw [if_pos hguard, hidx]
  simp only [Option.getD_some]
  rw [if_pos hlt, htake]
  exact goReplace1_self s (cid ++ cdnHost)

/-- Shape of the output of the gateway-rewrite branch: the rewrite always
produces `https://<cid>.ipfscdn.io/ipfs/<tail>`. -/
theorem mktBuild_rewrite_case (cid s : GoStr) (e : Nat) (hpre : httpsPre <+: s)
    (hidx : goIndex s cdnPat = some e) (he : 8 < e) :
    ∃ q, mktBuildIpfsUri cid s = httpsPre ++ cid ++ cdnPat ++ q := by
  obtain ⟨s₁, hs₁⟩ := hpre
  obtain ⟨q, hq⟩ := goIndex_some_prefix hidx
  have hdrop8 : s.drop 8 = s₁ := by
    rw [← hs₁, ← httpsPre_length, List.drop_left]
  have hdrope : s₁.drop (e - 8) = cdnPat ++ q := by
    rw [← hdrop8, List.drop_drop]
    have h8 : 8 + (e - 8) = e := by omega
    rw [h8]
    exact hq.symm
  set E := s₁.take (e - 8) with hE
  have hs₁split : s₁ = (E ++ cdnHost) ++ (slashIpfs ++ q) := by
    conv_lhs => rw [← List.take_append_drop (e - 8) s₁]
    rw [hdrope, ← hE, ← cdnHost_append_slashIpfs]
    simp [List.append_assoc]
  have hshape : s = httpsPre ++ ((E ++ cdnHost) ++ (slashIpfs ++ q)) := by
    rw [← hs₁, hs₁split]
  have hidx2 : goIndex s (E ++ cdnHost) = some 8 := by
    rw [hshape]
    have := goIndex_append_pattern httpsPre (E ++ cdnHost) (slashIpfs ++ q)
      httpsPre_dotfree (List.mem_append_right E dot_mem_cdnHost)
    simpa [httpsPre_length] using this
  refine ⟨q, ?_⟩
  have hguard : (httpsPre.isPrefixOf s && goContains s cdnPat) = true := by
    rw [List.isPrefixOf_iff_prefix.mpr ⟨s₁, hs₁⟩, goContains, hidx]
    rfl
  unfold mktBuildIpfsUri
  rw [if_pos hguard, hidx]
  simp only [Option.getD_some]
  rw [if_pos he, hdrop8, ← hE]
  have hrepl : goReplace1 s (E ++ cdnHost) (cid ++ cdnHost)
      = s.take 8 ++ (cid ++ cdnHost) ++ s.drop (8 + (E ++ cdnHost).length) := by
    simp [goReplace1, hidx2]
  rw [hrepl]
  have htake8 : s.take 8 = httpsPre := by
    rw [← hs₁, ← httpsPre_length, List.take_left]
  have hdroplen : s.drop (8 + (E ++ cdnHost).length) = slashIpfs ++ q := by
    have hlen : 8 + (E ++ cdnHost).length = (httpsPre ++ (E ++ cdnHost)).length := by
      simp [List.length_append, httpsPre_length]
    have hsg : s = (httpsPre ++ (E ++ cdnHost)) ++ (slashIpfs ++ q) := by
      rw [hshape]
      simp [List.append_assoc]
    rw [hlen, hsg, List.drop_left]
  rw [htake8, hdroplen, ← cdnHost_append_slashIpfs]
  simp [List.append_assoc]

/-- C7: URL resolution by the marketplace resolver is idempotent: for every
input string `x`, `resolve (resolve x) = resolve x` under a fixed configured
gateway client identifier (any nonempty dot-free id, as the configured ids
are); in particular rewriting a gateway URL that already carries the target
identifier is a no-op. -/
theorem C7_resolve_idempotent (cid x : GoStr) (h1 : cid ≠ [])
    (h2 : ∀ c ∈ cid, c ≠ '.') :
    mktBuildIpfsUri cid (mktBuildIpfsUri cid x) = mktBuildIpfsUri cid x ∧
    ∀ q, mktBuildIpfsUri cid (httpsPre ++ cid ++ cdnPat ++ q)
      = httpsPre ++ cid ++ cdnPat ++ q := by
  refine ⟨?_, fun q => mktBuild_fixed cid q h1 h2⟩
  by_cases hg : (httpsPre.isPrefixOf x && goContains x cdnPat) = true
  · obtain ⟨hp, hc⟩ := Bool.and_eq_true_iff.mp hg
    rw [goContains] at hc
    obtain ⟨e, hidx⟩ := Option.isSome_iff_exists.mp hc
    by_cases he : 8 < e
    · obtain ⟨q, hq⟩ :=
        mktBuild_rewrite_case cid x e (List.isPrefixOf_iff_prefix.mp hp) hidx he
      rw [hq]
      exact mktBuild_fixed cid q h1 h2
    · have hx : mktBuildIpfsUri cid x = x := by
        unfold mktBuildIpfsUri
        rw [if_pos hg, hidx]
        simp only [Option.getD_some]
        rw [if_neg he]
        unfold mktBuildIpfsUriRest
        rw [if_pos (by rw [hp]; simp)]
      rw [hx]
      exact hx
  · have hrest : mktBuildIpfsUri cid x = mktBuildIpfsUriRest cid x := by
      unfold mktBuildIpfsUri
      rw [if_neg hg]
    rw [hrest]
    by_cases hh : (httpPre.isPrefixOf x || httpsPre.isPrefixOf x) = true
    · have hx : mktBuildIpfsUriRest cid x = x := by
        unfold mktBuildIpfsUriRest
        rw [if_pos hh]
      rw [hx, hrest, hx]
    · by_cases hi : ipfsPre.isPrefixOf x = true
      · have hx : mktBuildIpfsUriRest cid x = httpsPre ++ cid ++ cdnPat ++ x.drop 7 := by
          unfold mktBuildIpfsUriRest
          rw [if_neg hh, if_pos hi]
        rw [hx]
        exact mktBuild_fixed cid (x.drop 7) h1 h2
      · have hx : mktBuildIpfsUriRest cid x = x := by
          unfold mktBuildIpfsUriRest
          rw [if_neg hh, if_neg hi]
        rw [hx, hrest, hx]

/-- Witness for C7 at the hard-coded fallback client id and a concrete
`ipfs://` input. -/
theorem C7_resolve_idempotent_witness :
    mktBuildIpfsUri defaultClientID
        (mktBuildIpfsUri defaultClientID "ipfs://QmAbc123".toList)
      = mktBuildIpfsUri defaultClientID "ipfs://QmAbc123".toList :=
  (C7_resolve_idempotent defaultClientID "ipfs://QmAbc123".toList
    (by decide) (by decide)).1

/-! ### Bare 46-character hash resolution -/

theorem ipfsPre_length : ipfsPre.length = 7 := rfl

/-- C8 (amended): the portfolio resolver converts a bare 46-character hash
beginning with the `Qm` marker and containing no protocol separator into the
ipfs.io gateway base URL with the hash appended — the same conversion it
applies to an `ipfs://` URI.  (The marketplace resolver has no such branch;
see the counterexample.) -/
theorem C8_pf_bare_hash (s : GoStr) (hlen : s.length = 46) (hqm : qmPre <+: s)
    (hsep : goContains s protoSep = false) :
    pfBuildIpfsUri s = ipfsIoBase ++ s ∧
    pfBuildIpfsUri s = pfBuildIpfsUri (ipfsPre ++ s) := by
  obtain ⟨s', hs'⟩ := hqm
  have hne : s ≠ [] := by
    intro h
    rw [h] at hlen
    simp at hlen
  have hhttp : httpPre.isPrefixOf s = false := by rw [← hs']; rfl
  have hhttps : httpsPre.isPrefixOf s = false := by rw [← hs']; rfl
  have hipfs : ipfsPre.isPrefixOf s = false := by rw [← hs']; rfl
  have hbare : pfBuildIpfsUri s = ipfsIoBase ++ s := by
    unfold pfBuildIpfsUri
    rw [if_neg hne, if_neg (by rw [hhttp, hhttps]; simp),
      if_neg (by rw [hipfs]; simp),
      if_pos (by
        rw [hsep, hlen, List.isPrefixOf_iff_prefix.mpr ⟨s', hs'⟩]
        rfl)]
  refine ⟨hbare, ?_⟩
  have hipfs2 : pfBuildIpfsUri (ipfsPre ++ s) = ipfsIoBase ++ s := by
    unfold pfBuildIpfsUri
    rw [if_neg (by simp [ipfsPre]),
      if_neg (by
        have h1 : httpPre.isPrefixOf (ipfsPre ++ s) = false := rfl
        have h2 : httpsPre.isPrefixOf (ipfsPre ++ s) = false := rfl
        rw [h1, h2]
        simp),
      if_pos (by
        rw [List.isPrefixOf_iff_prefix.mpr (List.prefix_append ipfsPre s)])]
    rw [← ipfsPre_length, List.drop_left]
  rw [hbare, hipfs2]

/-- Witness for C8 at a concrete 46-character `Qm` hash. -/
theorem C8_pf_bare_hash_witness :
    pfBuildIpfsUri "QmYwAPJzv5CZsnA625s3Xf2nemtYgPpHdWEz79ojWnPbdG".toList
      = ipfsIoBase ++ "QmYwAPJzv5CZsnA625s3Xf2nemtYgPpHdWEz79ojWnPbdG".toList :=
  (C8_pf_bare_hash "QmYwAPJzv5CZsnA625s3Xf2nemtYgPpHdWEz79ojWnPbdG".toList
    (by decide) (by decide) (by decide)).1

/-- C8 counterexample: the marketplace resolver (the resolver used by the
marketplace and farm-scan enrichment call sites) returns a bare 46-character
`Qm` hash unchanged — it is not converted to any gateway base URL. -/
theorem C8_counterexample :
    mktBuildIpfsUriEnv [] "QmYwAPJzv5CZsnA625s3Xf2nemtYgPpHdWEz79ojWnPbdG".toList
      = "QmYwAPJzv5CZsnA625s3Xf2nemtYgPpHdWEz79ojWnPbdG".toList ∧
    ("QmYwAPJzv5CZsnA625s3Xf2nemtYgPpHdWEz79ojWnPbdG".toList : GoStr).length = 46 ∧
    qmPre.isPrefixOf "QmYwAPJzv5CZsnA625s3Xf2nemtYgPpHdWEz79ojWnPbdG".toList = true ∧
    goContains "QmYwAPJzv5CZsnA625s3Xf2nemtYgPpHdWEz79ojWnPbdG".toList protoSep
      = false ∧
    "QmYwAPJzv5CZsnA625s3Xf2nemtYgPpHdWEz79ojWnPbdG".toList
      ≠ httpsPre ++ defaultClientID ++ cdnPat
          ++ "QmYwAPJzv5CZsnA625s3Xf2nemtYgPpHdWEz79ojWnPbdG".toList ∧
    "QmYwAPJzv5CZsnA625s3Xf2nemtYgPpHdWEz79ojWnPbdG".toList
      ≠ ipfsIoBase ++ "QmYwAPJzv5CZsnA625s3Xf2nemtYgPpHdWEz79ojWnPbdG".toList := by
  exact ⟨by decide, by decide, by decide, by decide, by decide, by decide⟩

/-- C5: with no usable cache entry under the derived key and a transport-level
response available, `FetchImageBytes` fails exactly when the URI is empty, the
status is outside `[200,300)`, or the body is empty; the empty URI fails
immediately with no network call and no cache access; and success returns the
fetched bytes and writes them under `"image:" ++ hex(md5(uri))` with a 1-hour
TTL. -/
theorem C5_fetch_spec (w : FetchWorld) (uri : GoStr) (status : Int)
    (body : List Nat)
    (hmiss : ¬ (w.cacheExists (imageCacheKey w uri) = true ∧
      ∃ b, w.cacheGet (imageCacheKey w uri) = some b ∧ b ≠ []))
    (hhttp : w.http uri = some (status, body)) :
    ((∃ e, (fetchImageBytes w uri).1 = .error e) ↔
      (uri = [] ∨ status < 200 ∨ 300 ≤ status ∨ body = [])) ∧
    (uri = [] → fetchImageBytes w uri = (.error "image URI is empty".toList, [])) ∧
    ((uri ≠ [] ∧ 200 ≤ status ∧ status < 300 ∧ body ≠ []) →
      fetchImageBytes w uri =
        (.ok body,
          [.cacheRead (imageCacheKey w uri), .httpGet uri,
            .cacheSet (imageCacheKey w uri) body 3600])) := by
  by_cases hu : uri = []
  · refine ⟨?_, fun _ => by simp [fetchImageBytes, hu], fun h => absurd hu h.1⟩
    constructor
    · intro _
      exact Or.inl hu
    · intro _
      exact ⟨"image URI is empty".toList, by simp [fetchImageBytes, hu]⟩
  · have hcached :
        (if w.cacheExists (imageCacheKey w uri) then
          match w.cacheGet (imageCacheKey w uri) with
          | some b => if 0 < b.length then some b else none
          | none => none
        else none) = (none : Option (List Nat)) := by
      by_cases hex : w.cacheExists (imageCacheKey w uri) = true
      · rw [if_pos hex]
        cases hget : w.cacheGet (imageCacheKey w uri) with
        | none => rfl
        | some b =>
          cases b with
          | nil => simp
          | cons x xs =>
            exact absurd ⟨hex, x :: xs, hget, by simp⟩ hmiss
      · rw [if_neg hex]
    by_cases hst : status < 200 ∨ 300 ≤ status
    · have hb : (status < 200 || 300 ≤ status) = true := by
        rcases hst with h | h
        · simp [h]
        · simp [h]
      have hval : fetchImageBytes w uri =
          (.error ("HTTP request failed with status ".toList
              ++ (toString status).toList),
            [.cacheRead (imageCacheKey w uri), .httpGet uri]) := by
        simp only [fetchImageBytes, if_neg hu, hcached, hhttp, hb, if_true]
      refine ⟨⟨fun _ => Or.inr (by tauto), fun _ => ⟨_, by rw [hval]⟩⟩,
        fun h => absurd h hu, fun h => ?_⟩
      rcases hst with h' | h'
      · omega
      · omega
    · push_neg at hst
      obtain ⟨h200, h300⟩ := hst
      have hb : (status < 200 || 300 ≤ status) = false := by
        simp only [Bool.or_eq_false_iff, decide_eq_false_iff_not]
        omega
      by_cases hbody : body = []
      · have hval : fetchImageBytes w uri =
            (.error "image data is empty".toList,
              [.cacheRead (imageCacheKey w uri), .httpGet uri]) := by
          simp only [fetchImageBytes, if_neg hu, hcached, hhttp, hb,
            Bool.false_eq_true, if_false, hbody, List.length_nil, if_pos rfl,
            eq_self_iff_true, if_true]
        exact ⟨⟨fun _ => Or.inr (Or.inr (Or.inr hbody)), fun _ => ⟨_, by rw [hval]⟩⟩,
          fun h => absurd h hu, fun h => absurd hbody h.2.2.2⟩
      · have hlen : ¬ body.length = 0 := by
          simpa [List.length_eq_zero] using hbody
        have hval : fetchImageBytes w uri =
            (.ok body,
              [.cacheRead (imageCacheKey w uri), .httpGet uri,
                .cacheSet (imageCacheKey w uri) body 3600]) := by
          simp only [fetchImageBytes, if_neg hu, hcached, hhttp, hb,
            Bool.false_eq_true, if_false, if_neg hlen]
        refine ⟨⟨fun he => ?_, fun h => ?_⟩, fun h => absurd h hu, fun _ => hval⟩
        · obtain ⟨e, he⟩ := he
          rw [hval] at he
          exact Except.noConfusion he
        · rcases h with h | h | h | h
          · exact absurd h hu
          · omega
          · omega
          · exact absurd h hbody

/-! ### Pagination behaviour of `GetFarmScans` -/

/-- C2 (amended): `getScans(name, 0, 0)` behaves identically to
`getScans(name, 1, 10)` — the same plan (offset, defaulted page/limit, cache
key) and hence the same queries, cache key and result in every environment.
`getScans(name, 1, 500)` however is NOT clamped: the service has no upper
bound on `limit` and issues its queries with limit 500 (the 100 cap lives
only in the HTTP route handler, which on out-of-range input falls back to
the default 10, not to 100). -/
theorem C2_pagination_clamp {R P S : Type} (env : ScanEnv R P S) (name : String) :
    farmScansPlan name 0 0 = farmScansPlan name 1 10 ∧
    getFarmScans env name 0 0 = getFarmScans env name 1 10 ∧
    (farmScansPlan name 1 500).limit = 500 := by
  have hplan : farmScansPlan name 0 0 = farmScansPlan name 1 10 := by
    unfold farmScansPlan
    norm_num
  refine ⟨hplan, ?_, by norm_num [farmScansPlan]⟩
  unfold getFarmScans
  rw [hplan]

/-- C2 counterexample: on a cold cache, `getScans("farm", 1, 500)` issues its
paged queries with limit 500 and caches under `limit_500`; the limit used is
not 100. -/
theorem C2_counterexample :
    (farmScansPlan "farm" 1 500).limit = 500 ∧
    (farmScansPlan "farm" 1 500).limit ≠ 100 ∧
    (getFarmScans missScanEnv "farm" 1 500).2 =
      [ScanEff.qPlantPage "farm" 0 500, ScanEff.qSoilPage "farm" 0 500,
        ScanEff.qPlantCount "farm", ScanEff.qSoilCount "farm",
        ScanEff.cacheWrite "farm_scans:farm:page_1:limit_500"] := by
  exact ⟨by decide, by decide, by rfl⟩

/-- C3 (code bug): `GetFarmScans` computes `offset := (page-1)*limit` from the
raw arguments BEFORE the non-positive defaults are applied, so
`GetFarmScans(_, 0, 5)` sends offset −5 (negative) to both paged queries,
while the claim's normalized computation `(1−1)×5` gives 0. -/
theorem C3_offset_before_clamp :
    (farmScansPlan "farm" 0 5).offset = -5 ∧
    (farmScansPlan "farm" 0 5).offset < 0 ∧
    ((farmScansPlan "farm" 0 5).page - 1) * (farmScansPlan "farm" 0 5).limit = 0 ∧
    (getFarmScans missScanEnv "farm" 0 5).2 =
      [ScanEff.qPlantPage "farm" (-5) 5, ScanEff.qSoilPage "farm" (-5) 5,
        ScanEff.qPlantCount "farm", ScanEff.qSoilCount "farm",
        ScanEff.cacheWrite "farm_scans:farm:page_1:limit_5"] := by
  exact ⟨by decide, by decide, by decide, by rfl⟩

/-- Go's `(total + limit - 1) / limit` is ceiling division: its value `tp`
is characterized by `total ≤ limit·tp < total + limit`. -/
theorem tdiv_ceil_bounds (total limit : Int) (h0 : 0 ≤ total) (h1 : 1 ≤ limit) :
    total ≤ limit * ((total + limit - 1).tdiv limit) ∧
    limit * ((total + limit - 1).tdiv limit) < total + limit := by
  have hT : (0 : Int) ≤ total + limit - 1 := by omega
  have heq : (total + limit - 1).tdiv limit = (total + limit - 1) / limit :=
    Int.tdiv_eq_ediv hT (by omega)
  have hsum := Int.ediv_add_emod (total + limit - 1) limit
  have hr0 := Int.emod_nonneg (total + limit - 1) (b := limit) (by omega)
  have hr1 := Int.emod_lt_of_pos (total + limit - 1) (b := limit) (by omega)
  rw [heq]
  omega

/-- C4: on every successful cache-missing `getScans` call whose count queries
returned `a` (plant scans) and `b` (soil readings), the returned pagination
satisfies `total = max a b` (not the sum), `totalPages = ⌈total/limit⌉`
(characterized by `total ≤ limit·totalPages < total + limit`),
`hasNext = (page < totalPages)` and `hasPrevious = (page > 1)`, with `page`
and `limit` the normalized values. -/
theorem C4_pagination_metadata {R P S : Type} (env : ScanEnv R P S)
    (name : String) (page limit : Int) (a b : Int) (res : FarmScanResult P S)
    (hmiss : (if env.cacheExists (farmScansPlan name page limit).cacheKey then
        env.cacheGet (farmScansPlan name page limit).cacheKey else none) = none)
    (hca : env.plantCountQ name = .ok [some a])
    (hcb : env.soilCountQ name = .ok [some b])
    (ha0 : 0 ≤ a) (hb0 : 0 ≤ b)
    (hres : (getFarmScans env name page limit).1 = .ok res) :
    res.pagination.total = max a b ∧
    res.pagination.total ≤ res.pagination.limit * res.pagination.totalPages ∧
    res.pagination.limit * res.pagination.totalPages
      < res.pagination.total + res.pagination.limit ∧
    res.pagination.hasNext
      = decide (res.pagination.page < res.pagination.totalPages) ∧
    res.pagination.hasPrevious = decide (1 < res.pagination.page) ∧
    res.pagination.page = (farmScansPlan name page limit).page ∧
    res.pagination.limit = (farmScansPlan name page limit).limit := by
  simp only [getFarmScans] at hres
  rw [hmiss] at hres
  cases hpq : env.plantPageQ name (farmScansPlan name page limit).offset
      (farmScansPlan name page limit).limit with
  | error e =>
    simp only [getFarmScansLive, hpq] at hres
    exact Except.noConfusion hres
  | ok precs =>
  cases hsq : env.soilPageQ name (farmScansPlan name page limit).offset
      (farmScansPlan name page limit).limit with
  | error e =>
    simp only [getFarmScansLive, hpq, hsq] at hres
    exact Except.noConfusion hres
  | ok srecs =>
  simp only [getFarmScansLive, hpq, hsq, hca, hcb, extractTotal] at hres
  have hpag : res.pagination =
      { page := (farmScansPlan name page limit).page,
        limit := (farmScansPlan name page limit).limit,
        total := if a < b then b else a,
        totalPages := ((if a < b then b else a)
            + (farmScansPlan name page limit).limit - 1).tdiv
          (farmScansPlan name page limit).limit,
        hasNext := decide ((farmScansPlan name page limit).page
          < ((if a < b then b else a)
              + (farmScansPlan name page limit).limit - 1).tdiv
            (farmScansPlan name page limit).limit),
        hasPrevious := decide (1 < (farmScansPlan name page limit).page) } := by
    rw [← Except.ok.inj hres]
  have hlim : 1 ≤ (farmScansPlan name page limit).limit := by
    unfold farmScansPlan
    simp only
    split
    · omega
    · omega
  have htot : (if a < b then b else a) = max a b := by omega
  have hmx0 : 0 ≤ max a b := by omega
  have hbounds := tdiv_ceil_bounds (max a b) (farmScansPlan name page limit).limit
    hmx0 hlim
  rw [hpag]
  simp only [htot]
  exact ⟨trivial, hbounds.1, hbounds.2, trivial, trivial, trivial, trivial⟩

/-- Witness for C4: counts 5 and 3 with page 1, limit 2 give total 5,
totalPages 3, hasNext true, hasPrevious false. -/
theorem C4_pagination_metadata_witness :
    (⟨[], [], ⟨1, 2, 5, 3, true, false⟩⟩ : FarmScanResult Unit Unit).pagination.total
        = max 5 3 ∧
    (⟨[], [], ⟨1, 2, 5, 3, true, false⟩⟩ : FarmScanResult Unit Unit).pagination.total
        ≤ (⟨[], [], ⟨1, 2, 5, 3, true, false⟩⟩ : FarmScanResult Unit Unit).pagination.limit
          * (⟨[], [], ⟨1, 2, 5, 3, true, false⟩⟩ : FarmScanResult Unit Unit).pagination.totalPages ∧
    (⟨[], [], ⟨1, 2, 5, 3, true, false⟩⟩ : FarmScanResult Unit Unit).pagination.limit
        * (⟨[], [], ⟨1, 2, 5, 3, true, false⟩⟩ : FarmScanResult Unit Unit).pagination.totalPages
      < (⟨[], [], ⟨1, 2, 5, 3, true, false⟩⟩ : FarmScanResult Unit Unit).pagination.total
          + (⟨[], [], ⟨1, 2, 5, 3, true, false⟩⟩ : FarmScanResult Unit Unit).pagination.limit ∧
    (⟨[], [], ⟨1, 2, 5, 3, true, false⟩⟩ : FarmScanResult Unit Unit).pagination.hasNext
      = decide ((⟨[], [], ⟨1, 2, 5, 3, true, false⟩⟩ : FarmScanResult Unit Unit).pagination.page
          < (⟨[], [], ⟨1, 2, 5, 3, true, false⟩⟩ : FarmScanResult Unit Unit).pagination.totalPages) ∧
    (⟨[], [], ⟨1, 2, 5, 3, true, false⟩⟩ : FarmScanResult Unit Unit).pagination.hasPrevious
      = decide (1 < (⟨[], [], ⟨1, 2, 5, 3, true, false⟩⟩ : FarmScanResult Unit Unit).pagination.page) ∧
    (⟨[], [], ⟨1, 2, 5, 3, true, false⟩⟩ : FarmScanResult Unit Unit).pagination.page
      = (farmScansPlan "farm" 1 2).page ∧
    (⟨[], [], ⟨1, 2, 5, 3, true, false⟩⟩ : FarmScanResult Unit Unit).pagination.limit
      = (farmScansPlan "farm" 1 2).limit :=
  C4_pagination_metadata missScanEnv "farm" 1 2 5 3
    ⟨[], [], ⟨1, 2, 5, 3, true, false⟩⟩ (by rfl) (by rfl) (by rfl)
    (by decide) (by decide) (by rfl)

/-- Witness for C5: a cold cache and an HTTP 200 response `[7]` yield success
`[7]`, with the cache write under the derived key at TTL 3600s. -/
theorem C5_fetch_spec_witness :
    fetchImageBytes okFetchWorld "u".toList =
      (.ok [7],
        [FetchEff.cacheRead (imageCacheKey okFetchWorld "u".toList),
          FetchEff.httpGet "u".toList,
          FetchEff.cacheSet (imageCacheKey okFetchWorld "u".toList) [7] 3600]) :=
  (C5_fetch_spec okFetchWorld "u".toList 200 [7] (by simp [okFetchWorld]) rfl).2.2
    ⟨by decide, by decide, by decide, by decide⟩

/-- On a cache fall-through the network path runs: it never returns an empty
body as success, and it always performs the HTTP call. -/
theorem fetch_net_cases (w : FetchWorld) (uri : GoStr) (hu : ¬ uri = [])
    (hcv : (if w.cacheExists (imageCacheKey w uri) then
        match w.cacheGet (imageCacheKey w uri) with
        | some b => if 0 < b.length then some b else none
        | none => none
      else none) = (none : Option (List Nat))) :
    (∀ bytes, (fetchImageBytes w uri).1 = .ok bytes → bytes ≠ []) ∧
    FetchEff.httpGet uri ∈ (fetchImageBytes w uri).2 := by
  cases hh : w.http uri with
  | none =>
    have hval : fetchImageBytes w uri = (.error "failed to fetch image".toList,
        [.cacheRead (imageCacheKey w uri), .httpGet uri]) := by
      simp only [fetchImageBytes, if_neg hu, hcv, hh]
    rw [hval]
    exact ⟨fun bytes hb => Except.noConfusion hb, by simp⟩
  | some sb =>
    obtain ⟨status, body⟩ := sb
    by_cases hst : (status < 200 || 300 ≤ status) = true
    · have hval : fetchImageBytes w uri =
          (.error ("HTTP request failed with status ".toList
              ++ (toString status).toList),
            [.cacheRead (imageCacheKey w uri), .httpGet uri]) := by
        simp only [fetchImageBytes, if_neg hu, hcv, hh, hst, if_true]
      rw [hval]
      exact ⟨fun bytes hb => Except.noConfusion hb, by simp⟩
    · have hst' : (status < 200 || 300 ≤ status) = false :=
        Bool.not_eq_true _ ▸ (by simpa using hst)
      by_cases hbl : body.length = 0
      · have hval : fetchImageBytes w uri =
            (.error "image data is empty".toList,
              [.cacheRead (imageCacheKey w uri), .httpGet uri]) := by
          simp only [fetchImageBytes, if_neg hu, hcv, hh, hst',
            Bool.false_eq_true, if_false, if_pos hbl]
        rw [hval]
        exact ⟨fun bytes hb => Except.noConfusion hb, by simp⟩
      · have hval : fetchImageBytes w uri =
            (.ok body,
              [.cacheRead (imageCacheKey w uri), .httpGet uri,
                .cacheSet (imageCacheKey w uri) body 3600]) := by
          simp only [fetchImageBytes, if_neg hu, hcv, hh, hst',
            Bool.false_eq_true, if_false, if_neg hbl]
        rw [hval]
        refine ⟨fun bytes hb => ?_, by simp⟩
        rw [← Except.ok.inj hb]
        intro hnil
        rw [hnil] at hbl
        simp at hbl

/-- C10: a successful `FetchImageBytes` always returns a nonempty byte slice
— the cache branch returns only nonempty cached values, and the network
branch rejects an empty body; moreover an empty cached entry falls through to
the network fetch (the HTTP call is performed). -/
theorem C10_success_nonempty (w : FetchWorld) (uri : GoStr) :
    (∀ bytes, (fetchImageBytes w uri).1 = .ok bytes → bytes ≠ []) ∧
    ((uri ≠ [] ∧ w.cacheGet (imageCacheKey w uri) = some []) →
      FetchEff.httpGet uri ∈ (fetchImageBytes w uri).2) := by
  by_cases hu : uri = []
  · refine ⟨fun bytes hb => ?_, fun h => absurd hu h.1⟩
    rw [hu] at hb
    simp only [fetchImageBytes, if_pos rfl] at hb
    exact Except.noConfusion hb
  · by_cases hex : w.cacheExists (imageCacheKey w uri) = true
    · cases hget : w.cacheGet (imageCacheKey w uri) with
      | none =>
        have hcv : (if w.cacheExists (imageCacheKey w uri) then
            match w.cacheGet (imageCacheKey w uri) with
            | some b => if 0 < b.length then some b else none
            | none => none
          else none) = (none : Option (List Nat)) := by
          rw [if_pos hex, hget]
        obtain ⟨h1, h2⟩ := fetch_net_cases w uri hu hcv
        exact ⟨h1, fun _ => h2⟩
      | some b =>
        by_cases hbl : 0 < b.length
        · have hval : fetchImageBytes w uri
              = (.ok b, [.cacheRead (imageCacheKey w uri)]) := by
            simp only [fetchImageBytes, if_neg hu, if_pos hex, hget, if_pos hbl]
          refine ⟨fun bytes hb' => ?_, fun h => ?_⟩
          · rw [hval] at hb'
            rw [← Except.ok.inj hb']
            intro hnil
            rw [hnil] at hbl
            simp at hbl
          · have hb0 : b = [] := Option.some.inj h.2
            rw [hb0] at hbl
            simp at hbl
        · have hcv : (if w.cacheExists (imageCacheKey w uri) then
              match w.cacheGet (imageCacheKey w uri) with
              | some b => if 0 < b.length then some b else none
              | none => none
            else none) = (none : Option (List Nat)) := by
            rw [if_pos hex, hget]
            simp only [if_neg hbl]
          obtain ⟨h1, h2⟩ := fetch_net_cases w uri hu hcv
          exact ⟨h1, fun _ => h2⟩
    · have hcv : (if w.cacheExists (imageCacheKey w uri) then
          match w.cacheGet (imageCacheKey w uri) with
          | some b => if 0 < b.length then some b else none
          | none => none
        else none) = (none : Option (List Nat)) := by
        rw [if_neg hex]
      obtain ⟨h1, h2⟩ := fetch_net_cases w uri hu hcv
      exact ⟨h1, fun _ => h2⟩

/-- Witness for C10: the success bytes `[7]` are nonempty, and with an empty
cached entry the HTTP call is still made. -/
theorem C10_success_nonempty_witness :
    ([7] : List Nat) ≠ [] ∧
    FetchEff.httpGet "u".toList ∈ (fetchImageBytes emptyCachedWorld "u".toList).2 :=
  ⟨(C10_success_nonempty okFetchWorld "u".toList).1 [7] (by rfl),
    (C10_success_nonempty emptyCachedWorld "u".toList).2 ⟨by decide, by rfl⟩⟩

/-! ### Partial-failure containment and cache short-circuit -/

/-- C1: partial-failure containment in enrichment.  On a cache miss with a
successful, parsed API response, the call returns success with the positional
per-slot enrichment of the input listings — even when the image fetch for the
record at index `k` fails.  Slot `j` is `enrichListing` of input record `j`
alone (slots are independent), slot `k` keeps its non-image fields and its
image field stays at the nil default, and the fetch error is never surfaced. -/
theorem C1_partial_failure_containment {δ α β : Type} (env : MktEnv δ α β)
    (chainID contractAddress : String)
    (listings : List (FarmPlotDirectListing δ α β)) (status : Int)
    (k : Nat) (hk : k < listings.length) (uri : GoStr)
    (hmiss : (if env.cacheExists (mktCacheKey chainID contractAddress) then
        env.cacheGet (mktCacheKey chainID contractAddress) else none) = none)
    (hapi : env.api (mktListingsUrl chainID contractAddress)
      = .resp status (.ok listings))
    (h200 : 200 ≤ status) (h300 : status < 300)
    (huri : listingImageURI (listings.get ⟨k, hk⟩) = some uri)
    (hfail : env.fetchImage (mktBuildIpfsUriEnv env.envClientID uri) = none) :
    (getAllValidFarmPlotListings env chainID contractAddress).1
      = .ok (listings.map (enrichListing env.envClientID env.fetchImage)) ∧
    (listings.map (enrichListing env.envClientID env.fetchImage)).length
      = listings.length ∧
    (∀ j (hj : j < listings.length),
      (listings.map (enrichListing env.envClientID env.fetchImage)).get
          ⟨j, by simpa using hj⟩
        = enrichListing env.envClientID env.fetchImage (listings.get ⟨j, hj⟩)) ∧
    (enrichListing env.envClientID env.fetchImage (listings.get ⟨k, hk⟩)).directListing
      = (listings.get ⟨k, hk⟩).directListing ∧
    (enrichListing env.envClientID env.fetchImage (listings.get ⟨k, hk⟩)).asset
      = (listings.get ⟨k, hk⟩).asset ∧
    (enrichListing env.envClientID env.fetchImage (listings.get ⟨k, hk⟩)).imageBytes
      = none := by
  have hne : listings.isEmpty = false := by
    cases listings with
    | nil => simp at hk
    | cons x xs => rfl
  have hstf : (status < 200 || 300 ≤ status) = false := by
    simp only [Bool.or_eq_false_iff, decide_eq_false_iff_not]
    omega
  have huri' : listingImageURI listings[k] = some uri := huri
  refine ⟨?_, by simp, fun j hj => by simp, rfl, rfl,
    by simp [enrichListing, huri', hfail]⟩
  simp only [getAllValidFarmPlotListings, hmiss, hapi, hstf, Bool.false_eq_true,
    if_false, hne]
  split
  · rfl
  · rfl

/-- Witness for C1: one listing with a failing image fetch — the call still
succeeds and the slot's image stays at the nil default. -/
theorem C1_partial_failure_containment_witness :
    (getAllValidFarmPlotListings failFetchMktEnv "" "").1
      = .ok ([oneListing].map
          (enrichListing failFetchMktEnv.envClientID failFetchMktEnv.fetchImage)) ∧
    (enrichListing failFetchMktEnv.envClientID failFetchMktEnv.fetchImage
        ([oneListing].get ⟨0, by decide⟩)).imageBytes = none :=
  ⟨(C1_partial_failure_containment failFetchMktEnv "" "" [oneListing] 200 0
      (by decide) "ipfs://Qm1".toList rfl rfl (by decide) (by decide) rfl rfl).1,
    (C1_partial_failure_containment failFetchMktEnv "" "" [oneListing] 200 0
      (by decide) "ipfs://Qm1".toList rfl rfl (by decide) (by decide) rfl
      rfl).2.2.2.2.2⟩

/-- C6: cache hit short-circuits compute for both `GetFarmScans` and
`GetAllValidFarmPlotListings`: when the derived key exists and its value
deserializes, the cached value is returned with an empty effect list — no
graph-store query, no API call, no image fetch, no cache write. -/
theorem C6_cache_hit_short_circuit {R P S δ α β : Type} (envF : ScanEnv R P S)
    (envM : MktEnv δ α β) (name : String) (page limit : Int)
    (cachedF : FarmScanResult P S) (chainID contractAddress : String)
    (cachedM : List (FarmPlotListingWithImage δ α β))
    (hexF : envF.cacheExists (farmScansPlan name page limit).cacheKey = true)
    (hgetF : envF.cacheGet (farmScansPlan name page limit).cacheKey = some cachedF)
    (hexM : envM.cacheExists (mktCacheKey chainID contractAddress) = true)
    (hgetM : envM.cacheGet (mktCacheKey chainID contractAddress) = some cachedM) :
    getFarmScans envF name page limit = (.ok cachedF, []) ∧
    getAllValidFarmPlotListings envM chainID contractAddress = (.ok cachedM, []) := by
  constructor
  · simp only [getFarmScans, hexF, if_true, hgetF]
  · simp only [getAllValidFarmPlotListings, hexM, if_true, hgetM]

/-- Witness for C6 with concrete hitting environments. -/
theorem C6_cache_hit_short_circuit_witness :
    getFarmScans hitScanEnv "farm" 1 10 = (.ok cachedScanResult, []) ∧
    getAllValidFarmPlotListings hitMktEnv "" "" = (.ok [], []) :=
  C6_cache_hit_short_circuit hitScanEnv hitMktEnv "farm" 1 10 cachedScanResult
    "" "" [] rfl rfl rfl rfl

/-! ### Dev-bypass sentinel uniformity -/

/-- C9: for both portfolio operations, an invocation with the reserved
sentinel token behaves identically — same result and same downstream cache
keys, queries and effects — to an invocation by any token that verifies to
the fixed development subject; the owned-NFT lookup on the sentinel run
queries the engine with the substituted subject identifier, and
`VerifyAccessToken` maps the sentinel to that identifier. -/
theorem C9_dev_bypass_uniform (env : PfEnv) (t : String)
    (hv : env.jwtVerify t = .ok devWallet) :
    verifyAccessToken env devBypassToken = .ok devWallet ∧
    getEntirePortfolio env devBypassToken = getEntirePortfolio env t ∧
    getPortFolioSummary env devBypassToken = getPortFolioSummary env t ∧
    (getOwnedNFTs env configFarmPlotContract devBypassToken).2
      = [PfEff.nftApiCall (ownedNFTsUrl configFarmPlotContract devWallet)] := by
  have hvL : verifyAccessToken env devBypassToken = .ok devWallet := by
    unfold verifyAccessToken
    rw [if_pos rfl]
  have hurl : (getOwnedNFTs env configFarmPlotContract devBypassToken).2
      = [PfEff.nftApiCall (ownedNFTsUrl configFarmPlotContract devWallet)] := by
    unfold getOwnedNFTs
    rw [hvL]
    cases h : env.nftApi (ownedNFTsUrl configFarmPlotContract devWallet) with
    | transportErr m => simp [h]
    | resp status parsed =>
      by_cases hst : (status < 200 || 300 ≤ status) = true
      · simp [h, hst]
      · have hst' : (status < 200 || 300 ≤ status) = false := by
          simpa using hst
        cases parsed with
        | error m => simp [h, hst']
        | ok items => simp [h, hst']
  by_cases ht : t = devBypassToken
  · subst ht
    exact ⟨hvL, rfl, rfl, hurl⟩
  · have hOwned : getOwnedNFTs env configFarmPlotContract devBypassToken
        = getOwnedNFTs env configFarmPlotContract t := by
      unfold getOwnedNFTs verifyAccessToken
      rw [if_pos rfl, if_neg ht, hv]
    have hL : (if devBypassToken = devBypassToken then Except.ok devWallet
        else env.jwtVerify devBypassToken) = Except.ok devWallet := if_pos rfl
    have hR : (if t = devBypassToken then Except.ok devWallet
        else env.jwtVerify t) = Except.ok devWallet := by
      rw [if_neg ht]
      exact hv
    refine ⟨hvL, ?_, ?_, hurl⟩
    · simp only [getEntirePortfolio, hL, hR, hOwned, eq_self_iff_true, if_true]
    · simp only [getPortFolioSummary, hL, hR, hOwned, eq_self_iff_true, if_true]

/-- Witness for C9 at the concrete environment `devPfEnv` and token
`"tok"`. -/
theorem C9_dev_bypass_uniform_witness :
    verifyAccessToken devPfEnv devBypassToken = .ok devWallet ∧
    getEntirePortfolio devPfEnv devBypassToken = getEntirePortfolio devPfEnv "tok" ∧
    getPortFolioSummary devPfEnv devBypassToken
      = getPortFolioSummary devPfEnv "tok" ∧
    (getOwnedNFTs devPfEnv configFarmPlotContract devBypassToken).2
      = [PfEff.nftApiCall (ownedNFTsUrl configFarmPlotContract devWallet)] :=
  C9_dev_bypass_uniform devPfEnv "tok" (by rfl)

end DecentragriSpec
